import Mathlib

/-!
Verification of the numerical core of `cpol_processing` (modules
`processing/phase.py` and `processing/attenuation.py`).

Sweep grids (2D arrays indexed `[ray, gate]`) are modelled as lists of
rays, each ray a list of rational gate values; the gate filter is a
boolean grid with `true` meaning the gate is excluded.  Machine floats
are modelled by `ℚ` (the properties verified here are structural:
clamping, index bookkeeping, control flow, exact linear arithmetic).
Calls into external libraries (Py-ART's `dealias_region_based` and
`phase_proc_lp`, csu_radartools' `calc_kdp_bringi`, `numpy.exp`) are not
part of this repository and are abstracted as function parameters of the
embedded definitions; everything else is translated line by line from
the source.
-/

namespace Cpol

/-- One ray of gate values (one row of a sweep grid). -/
abbrev Ray := List ℚ

/-- A sweep grid: a list of rays, indexed `[ray, gate]`. -/
abbrev Grid := List (List ℚ)

/-- A gate-filter grid: `true` marks a gate as excluded
(`gatefilter.gate_excluded`). -/
abbrev Mask := List (List Bool)

/-- Entry of a list-of-lists at row `i`, column `j` (as an `Option`). -/
def gEntry {α : Type} (g : List (List α)) (i j : ℕ) : Option α :=
  g[i]?.bind (fun row => row[j]?)

/-- Python runtime errors that the embedded code can raise. -/
inductive PyErr where
  | valueError : PyErr
  | indexError : PyErr
  | nameError : PyErr
  | typeError : PyErr
deriving DecidableEq, Repr

/-! ### `fix_phidp_from_kdp` (phase.py, lines 37-63) -/

/-- Pointwise effect on one gate of the KDP plausibility clamp at the top
of `fix_phidp_from_kdp` (phase.py lines 57-59): first
`kdp[gatefilter.gate_excluded] = 0`, then `kdp[(kdp < -4)] = 0`, then
`kdp[kdp > 15] = 0`, applied in that order. -/
def clampKdpPoint (excl : Bool) (v : ℚ) : ℚ :=
  let v1 := if excl then 0 else v
  let v2 := if v1 < -4 then 0 else v1
  if 15 < v2 then 0 else v2

/-- The KDP plausibility clamp applied to one ray. -/
def clampRow (mrow : List Bool) (krow : Ray) : Ray :=
  List.zipWith clampKdpPoint mrow krow

/-- The KDP plausibility clamp (phase.py lines 57-59) applied to the
whole grid, gate for gate against the gate-excluded mask. -/
def clampKdp (M : Mask) (K : Grid) : Grid :=
  List.zipWith clampRow M K

/-- Running (cumulative) sum of a list, starting with the first element:
`cumsum [a, b, c] = [a, a + b, a + b + c]`.  This is the accumulation
inside `scipy.integrate.cumtrapz`. -/
def cumsum : List ℚ → List ℚ
  | [] => []
  | x :: xs => x :: (cumsum xs).map (fun s => x + s)

/-- Trapezoid areas of consecutive sample pairs: entry `t` is
`(x[t+1] - x[t]) * (y[t] + y[t+1]) / 2`.  The output has one fewer
element than the shorter of the two inputs. -/
def segAreas : List ℚ → List ℚ → List ℚ
  | x0 :: x1 :: xs, y0 :: y1 :: ys =>
      (x1 - x0) * (y0 + y1) / 2 :: segAreas (x1 :: xs) (y1 :: ys)
  | _, _ => []

/-- Model of `scipy.integrate.cumtrapz(y, x)`: cumulative trapezoidal
integral of the samples `y` against the sample points `x`; for inputs of
length `n` the result has length `n - 1`. -/
def cumtrapz (y x : Ray) : Ray := cumsum (segAreas x y)

/-- Slice assignment `row[:-1] = vals` on one ray: the first
`vals.length` entries are replaced by `vals`, the remaining entries keep
their previous values.  (numpy additionally requires
`vals.length = row.length - 1`; the theorems carry those shape
hypotheses, matching the spec's ShapeMismatchError precondition.) -/
def setFront (row vals : Ray) : Ray := vals ++ row.drop vals.length

/-- Embedding of `fix_phidp_from_kdp(phidp, kdp, r, gatefilter)`
(phase.py lines 37-63).  The function clamps KDP in place (lines 57-59),
integrates it with `integrate.cumtrapz(kdp, r, axis=1)` (line 60),
and overwrites `phidp[:, :-1]` with the integral divided by `len(r)`
(line 62).  The returned pair is the final value of the two (mutated)
input arrays. -/
def fix_phidp_from_kdp (phidp kdp : Grid) (r : Ray) (gate_excluded : Mask) :
    Grid × Grid :=
  let kdp2 := clampKdp gate_excluded kdp
  let interg := kdp2.map (fun krow => cumtrapz krow r)
  let phidp2 := List.zipWith
    (fun prow irow => setFront prow (irow.map (fun v => v / (r.length : ℚ))))
    phidp interg
  (phidp2, kdp2)

/-! ### Basic indexing lemmas -/

theorem zipWith_getElem?_some {α β γ : Type} {f : α → β → γ} {as : List α}
    {bs : List β} {i : ℕ} {a : α} {b : β}
    (ha : as[i]? = some a) (hb : bs[i]? = some b) :
    (List.zipWith f as bs)[i]? = some (f a b) := by
  rw [List.getElem?_zipWith, ha, hb]

theorem gEntry_zipWith {α β γ : Type} {f : α → β → γ} {A : List (List α)}
    {B : List (List β)} {i j : ℕ} {a : α} {b : β}
    (hA : gEntry A i j = some a) (hB : gEntry B i j = some b) :
    gEntry (List.zipWith (List.zipWith f) A B) i j = some (f a b) := by
  unfold gEntry at *
  obtain ⟨ra, hra, hraj⟩ := Option.bind_eq_some.mp hA
  obtain ⟨rb, hrb, hrbj⟩ := Option.bind_eq_some.mp hB
  rw [zipWith_getElem?_some hra hrb]
  simpa using zipWith_getElem?_some hraj hrbj

theorem gEntry_map {α β : Type} (f : α → β) (g : List (List α)) (i j : ℕ) :
    gEntry (g.map (List.map f)) i j = (gEntry g i j).map f := by
  unfold gEntry
  rw [List.getElem?_map]
  cases g[i]? with
  | none => rfl
  | some row => simp

theorem zipWith_idem {α β : Type} (f : α → β → β)
    (h : ∀ a b, f a (f a b) = f a b) :
    ∀ (as : List α) (bs : List β),
      List.zipWith f as (List.zipWith f as bs) = List.zipWith f as bs
  | [], _ => rfl
  | _ :: _, [] => rfl
  | a :: as, b :: bs => by
      simp only [List.zipWith, h a b]
      exact congrArg _ (zipWith_idem f h as bs)

/-! ### Pointwise facts about the KDP clamp -/

theorem clampKdpPoint_excluded (v : ℚ) : clampKdpPoint true v = 0 := by
  simp [clampKdpPoint]

theorem clampKdpPoint_mem_band (excl : Bool) (v : ℚ) :
    -4 ≤ clampKdpPoint excl v ∧ clampKdpPoint excl v ≤ 15 := by
  unfold clampKdpPoint
  cases excl <;> simp <;> split_ifs <;> norm_num <;> constructor <;> linarith

theorem clampKdpPoint_out_of_band (excl : Bool) (v : ℚ)
    (h : v < -4 ∨ 15 < v) : clampKdpPoint excl v = 0 := by
  cases excl
  · rcases h with h | h
    · norm_num [clampKdpPoint, h]
    · have h2 : ¬ v < -4 := by linarith
      norm_num [clampKdpPoint, h, h2]
  · exact clampKdpPoint_excluded v

theorem clampKdpPoint_idem (excl : Bool) (v : ℚ) :
    clampKdpPoint excl (clampKdpPoint excl v) = clampKdpPoint excl v := by
  unfold clampKdpPoint
  cases excl <;> simp <;> split_ifs <;> first | rfl | linarith

theorem clampRow_idem (mrow : List Bool) (krow : Ray) :
    clampRow mrow (clampRow mrow krow) = clampRow mrow krow :=
  zipWith_idem clampKdpPoint clampKdpPoint_idem mrow krow

/-- C3: the KDP plausibility clamp of `fix_phidp_from_kdp` (phase.py
lines 57-59: zero gate-excluded gates, zero values below -4, zero values
above 15) is idempotent — applying it twice to any KDP grid, with the
same gate filter, yields exactly the grid obtained by applying it
once. -/
theorem c3_clamp_idempotent (M : Mask) (K : Grid) :
    clampKdp M (clampKdp M K) = clampKdp M K :=
  zipWith_idem clampRow (fun m k => clampRow_idem m k) M K

/-- C4: after the KDP plausibility clamp, every gate value lies in the
band `[-4, 15]`, and every input value strictly outside that band has
become exactly `0`. -/
theorem c4_band_enforcement (M : Mask) (K : Grid) (i j : ℕ) (b : Bool)
    (v o : ℚ) (hb : gEntry M i j = some b) (hv : gEntry K i j = some v)
    (ho : gEntry (clampKdp M K) i j = some o) :
    (-4 ≤ o ∧ o ≤ 15) ∧ ((v < -4 ∨ 15 < v) → o = 0) := by
  have h : gEntry (clampKdp M K) i j = some (clampKdpPoint b v) := by
    have := gEntry_zipWith (f := clampKdpPoint) hb hv
    simpa [clampKdp, clampRow] using this
  have ho' : o = clampKdpPoint b v := by
    have := ho.symm.trans h
    exact Option.some.inj this
  subst ho'
  exact ⟨clampKdpPoint_mem_band b v, clampKdpPoint_out_of_band b v⟩

/-- Closed witness for `c4_band_enforcement` at a concrete grid: the
value `20` at an included gate is outside the band and is zeroed. -/
theorem c4_band_enforcement_witness :
    (-4 ≤ (0 : ℚ) ∧ (0 : ℚ) ≤ 15) ∧ (((20 : ℚ) < -4 ∨ (15 : ℚ) < 20) → (0 : ℚ) = 0) := by
  refine c4_band_enforcement [[false]] [[20]] 0 0 false 20 0 rfl rfl ?_
  norm_num [gEntry, clampKdp, clampRow, clampKdpPoint]

/-! ### Lengths and entries of the trapezoidal integral -/

theorem cumsum_length : ∀ l : List ℚ, (cumsum l).length = l.length
  | [] => rfl
  | x :: xs => by simp [cumsum, cumsum_length xs]

theorem segAreas_length : ∀ x y : List ℚ,
    (segAreas x y).length = min x.length y.length - 1
  | x0 :: x1 :: xs, y0 :: y1 :: ys => by
      have ih := segAreas_length (x1 :: xs) (y1 :: ys)
      simp only [segAreas, List.length_cons] at ih ⊢
      omega
  | [], y => by
      have h : segAreas [] y = [] := rfl
      simp [h]
  | [x], y => by
      have h : segAreas [x] y = [] := by
        cases y with
        | nil => rfl
        | cons a ys => cases ys with | nil => rfl | cons b ys => rfl
      simp only [h, List.length_nil, List.length_cons]
      omega
  | x0 :: x1 :: xs, [] => by
      have h : segAreas (x0 :: x1 :: xs) [] = [] := rfl
      simp [h]
  | x0 :: x1 :: xs, [y] => by
      have h : segAreas (x0 :: x1 :: xs) [y] = [] := rfl
      simp only [h, List.length_nil, List.length_cons]
      omega

theorem cumsum_getElem? : ∀ (l : List ℚ) (j : ℕ), j < l.length →
    (cumsum l)[j]? = some (∑ t in Finset.range (j + 1), l.getD t 0)
  | x :: xs, 0, _ => by simp [cumsum, Finset.sum_range_one]
  | x :: xs, j + 1, h => by
      have ih := cumsum_getElem? xs j (by simpa using h)
      have hsum : ∑ t in Finset.range (j + 1 + 1), (x :: xs).getD t 0
          = x + ∑ t in Finset.range (j + 1), xs.getD t 0 := by
        rw [Finset.sum_range_succ' (fun t => (x :: xs).getD t 0) (j + 1)]
        simp [List.getD_cons_succ, List.getD_cons_zero, add_comm]
      rw [show cumsum (x :: xs) = x :: (cumsum xs).map (fun s => x + s) from rfl,
        List.getElem?_cons_succ, List.getElem?_map, ih, hsum]
      rfl
  | [], j, h => by simp at h

theorem segAreas_getElem? : ∀ (x y : List ℚ) (t : ℕ),
    t + 1 < x.length → t + 1 < y.length →
    (segAreas x y)[t]? =
      some ((x.getD (t + 1) 0 - x.getD t 0) * (y.getD t 0 + y.getD (t + 1) 0) / 2)
  | x0 :: x1 :: xs, y0 :: y1 :: ys, 0, _, _ => by
      simp [segAreas]
  | x0 :: x1 :: xs, y0 :: y1 :: ys, t + 1, hx, hy => by
      have ih := segAreas_getElem? (x1 :: xs) (y1 :: ys) t
        (by simpa using hx) (by simpa using hy)
      simpa [segAreas] using ih
  | [], _, t, hx, _ => by simp at hx
  | [x], _, t, hx, _ => by simp at hx
  | _ :: _ :: _, [], t, _, hy => by simp at hy
  | _ :: _ :: _, [y], t, _, hy => by simp at hy

/-- Row `i` of both outputs of `fix_phidp_from_kdp`, given row `i` of the
three grid inputs. -/
theorem fix_phidp_from_kdp_rows (P K : Grid) (r : Ray) (M : Mask) (i : ℕ)
    (prow krow : Ray) (mrow : List Bool)
    (hP : P[i]? = some prow) (hK : K[i]? = some krow) (hM : M[i]? = some mrow) :
    ((fix_phidp_from_kdp P K r M).1)[i]? =
      some (setFront prow
        ((cumtrapz (clampRow mrow krow) r).map (fun v => v / (r.length : ℚ)))) ∧
    ((fix_phidp_from_kdp P K r M).2)[i]? = some (clampRow mrow krow) := by
  have hkc : (clampKdp M K)[i]? = some (clampRow mrow krow) :=
    zipWith_getElem?_some hM hK
  have hint : ((clampKdp M K).map (fun krow => cumtrapz krow r))[i]? =
      some (cumtrapz (clampRow mrow krow) r) := by
    rw [List.getElem?_map, hkc]; rfl
  exact ⟨zipWith_getElem?_some hP hint, hkc⟩

/-- C2: for every PHIDP grid, KDP grid, range vector and gate filter
(whose rows all match the range vector in length), row `i` of the PHIDP
output of `fix_phidp_from_kdp` holds, at every gate `j` with
`j + 1 < n` (`n` the number of range gates), the cumulative trapezoidal
integral of the clamped KDP up to gate `j + 1` divided by `n`, while the
final gate keeps its previous value; the raw integral has exactly one
fewer sample than the input length. -/
theorem c2_fix_phidp_integration (P K : Grid) (r : Ray) (M : Mask) (i : ℕ)
    (prow krow : Ray) (mrow : List Bool)
    (hP : P[i]? = some prow) (hK : K[i]? = some krow) (hM : M[i]? = some mrow)
    (hlp : prow.length = r.length) (hlk : krow.length = r.length)
    (hlm : mrow.length = r.length) (hn : 1 ≤ r.length) :
    ∃ orow : Ray,
      ((fix_phidp_from_kdp P K r M).1)[i]? = some orow ∧
      orow.length = r.length ∧
      (∀ j, j + 1 < r.length →
        orow[j]? = some ((∑ t in Finset.range (j + 1),
          (r.getD (t + 1) 0 - r.getD t 0) *
            ((clampRow mrow krow).getD t 0 + (clampRow mrow krow).getD (t + 1) 0) / 2)
          / (r.length : ℚ))) ∧
      orow[r.length - 1]? = prow[r.length - 1]? ∧
      (cumtrapz (clampRow mrow krow) r).length + 1 = r.length := by
  have hclen : (clampRow mrow krow).length = r.length := by
    simp [clampRow, List.length_zipWith, hlk, hlm]
  have hseglen : (segAreas r (clampRow mrow krow)).length = r.length - 1 := by
    rw [segAreas_length, hclen]; omega
  have hctlen : (cumtrapz (clampRow mrow krow) r).length = r.length - 1 := by
    simp [cumtrapz, cumsum_length, hseglen]
  have hvlen : ((cumtrapz (clampRow mrow krow) r).map
      (fun v => v / (r.length : ℚ))).length = r.length - 1 := by
    simp [hctlen]
  refine ⟨_, (fix_phidp_from_kdp_rows P K r M i prow krow mrow hP hK hM).1,
    ?_, ?_, ?_, ?_⟩
  · simp only [setFront, List.length_append, List.length_drop, hvlen, hlp]
    omega
  · intro j hj
    have hjv : j < ((cumtrapz (clampRow mrow krow) r).map
        (fun v => v / (r.length : ℚ))).length := by omega
    rw [setFront, List.getElem?_append_left hjv, List.getElem?_map]
    have hjseg : j < (segAreas r (clampRow mrow krow)).length := by omega
    rw [show cumtrapz (clampRow mrow krow) r =
          cumsum (segAreas r (clampRow mrow krow)) from rfl,
      cumsum_getElem? _ j hjseg]
    have hterm : ∀ t ∈ Finset.range (j + 1),
        (segAreas r (clampRow mrow krow)).getD t 0 =
          (r.getD (t + 1) 0 - r.getD t 0) *
            ((clampRow mrow krow).getD t 0 + (clampRow mrow krow).getD (t + 1) 0) / 2 := by
      intro t ht
      have ht1 : t + 1 < r.length := by
        have := Finset.mem_range.mp ht; omega
      have ht2 : t + 1 < (clampRow mrow krow).length := by omega
      rw [List.getD_eq_getElem?_getD, segAreas_getElem? r (clampRow mrow krow) t ht1 ht2]
      rfl
    rw [Finset.sum_congr rfl hterm]
    rfl
  · rw [setFront, List.getElem?_append_right (by omega), List.getElem?_drop]
    congr 1
    omega
  · rw [hctlen]; omega

/-- Closed witness for `c2_fix_phidp_integration`: one ray of two gates,
`phidp = [1, 2]`, `kdp = [3, 4]`, `r = [0, 2]`, nothing excluded. -/
theorem c2_fix_phidp_integration_witness :
    ∃ orow : Cpol.Ray,
      ((fix_phidp_from_kdp [[1, 2]] [[3, 4]] [0, 2] [[false, false]]).1)[0]? = some orow ∧
      orow.length = ([0, 2] : Ray).length ∧
      (∀ j, j + 1 < ([0, 2] : Ray).length →
        orow[j]? = some ((∑ t in Finset.range (j + 1),
          (([0, 2] : Ray).getD (t + 1) 0 - ([0, 2] : Ray).getD t 0) *
            ((clampRow [false, false] [3, 4]).getD t 0 +
              (clampRow [false, false] [3, 4]).getD (t + 1) 0) / 2)
          / ((([0, 2] : Ray).length : ℚ)))) ∧
      orow[([0, 2] : Ray).length - 1]? = ([1, 2] : Ray)[([0, 2] : Ray).length - 1]? ∧
      (cumtrapz (clampRow [false, false] [3, 4]) [0, 2]).length + 1 =
        ([0, 2] : Ray).length :=
  c2_fix_phidp_integration [[1, 2]] [[3, 4]] [0, 2] [[false, false]] 0
    [1, 2] [3, 4] [false, false] rfl rfl rfl rfl rfl rfl (by decide)

/-! ### In-place mutation frame of `fix_phidp_from_kdp` -/

theorem clampKdpPoint_in_band (v : ℚ) (h1 : -4 ≤ v) (h2 : v ≤ 15) :
    clampKdpPoint false v = v := by
  have hn1 : ¬ v < -4 := not_lt.mpr h1
  have hn2 : ¬ 15 < v := not_lt.mpr h2
  simp [clampKdpPoint, hn1, hn2]

/-- Counterexample to C9 as stated: with no gate excluded at all,
`fix_phidp_from_kdp` still changes its KDP input (the out-of-band value
`20` becomes `0`) and overwrites its PHIDP input (the first gate becomes
the normalized integral `3/2`), so the inputs are not left unchanged
up to gate-excluded zeroing. -/
theorem c9_counterexample :
    (fix_phidp_from_kdp [[1, 2]] [[20, 3]] [0, 2] [[false, false]]).2 ≠ [[20, 3]] ∧
    (fix_phidp_from_kdp [[1, 2]] [[20, 3]] [0, 2] [[false, false]]).1 ≠ [[1, 2]] := by
  constructor <;>
    norm_num [fix_phidp_from_kdp, clampKdp, clampRow, clampKdpPoint, cumtrapz,
      segAreas, cumsum, setFront]

/-- C9 (amended): `fix_phidp_from_kdp` mutates both of its input arrays
in place, beyond gate-excluded zeroing.  Its KDP input is changed
exactly by the plausibility clamp — an in-band value at an included gate
is preserved, while a gate that is excluded or holds an out-of-band
value is zeroed — and its PHIDP input keeps only the final gate of each
ray, every earlier gate being overwritten with the normalized KDP
integral; the returned pair is these mutated arrays. -/
theorem c9_inplace_mutation_frame (P K : Grid) (r : Ray) (M : Mask) (i j : ℕ)
    (v : ℚ) (b : Bool) (prow krow : Ray) (mrow : List Bool)
    (hP : P[i]? = some prow) (hK : K[i]? = some krow) (hM : M[i]? = some mrow)
    (hv : gEntry K i j = some v) (hb : gEntry M i j = some b)
    (hlp : prow.length = r.length) (hlk : krow.length = r.length)
    (hlm : mrow.length = r.length) (hn : 1 ≤ r.length) :
    (b = false → -4 ≤ v → v ≤ 15 →
      gEntry (fix_phidp_from_kdp P K r M).2 i j = some v) ∧
    ((b = true ∨ v < -4 ∨ 15 < v) →
      gEntry (fix_phidp_from_kdp P K r M).2 i j = some 0) ∧
    ((fix_phidp_from_kdp P K r M).1)[i]? =
      some (setFront prow
        ((cumtrapz (clampRow mrow krow) r).map (fun w => w / (r.length : ℚ)))) ∧
    (∃ orow : Ray, ((fix_phidp_from_kdp P K r M).1)[i]? = some orow ∧
      orow[r.length - 1]? = prow[r.length - 1]?) := by
  have hpoint : gEntry (fix_phidp_from_kdp P K r M).2 i j =
      some (clampKdpPoint b v) := by
    have := gEntry_zipWith (f := clampKdpPoint) hb hv
    simpa [fix_phidp_from_kdp, clampKdp, clampRow] using this
  have hrows := fix_phidp_from_kdp_rows P K r M i prow krow mrow hP hK hM
  refine ⟨?_, ?_, hrows.1, ?_⟩
  · rintro rfl h1 h2
    rw [hpoint, clampKdpPoint_in_band v h1 h2]
  · intro h
    rcases h with h | h
    · subst h
      rw [hpoint, clampKdpPoint_excluded]
    · rw [hpoint, clampKdpPoint_out_of_band b v h]
  · refine ⟨_, hrows.1, ?_⟩
    have hclen : (clampRow mrow krow).length = r.length := by
      simp [clampRow, List.length_zipWith, hlk, hlm]
    have hctlen : (cumtrapz (clampRow mrow krow) r).length = r.length - 1 := by
      simp [cumtrapz, cumsum_length, segAreas_length, hclen]
    have hvlen : ((cumtrapz (clampRow mrow krow) r).map
        (fun w => w / (r.length : ℚ))).length = r.length - 1 := by
      simp [hctlen]
    rw [setFront, List.getElem?_append_right (by omega), List.getElem?_drop]
    congr 1
    omega

/-- Closed witness for `c9_inplace_mutation_frame` on a one-ray grid
with an excluded second gate. -/
theorem c9_inplace_mutation_frame_witness :
    ((false : Bool) = false → -4 ≤ (3 : ℚ) → (3 : ℚ) ≤ 15 →
      gEntry (fix_phidp_from_kdp [[1, 2]] [[3, 4]] [0, 2] [[false, true]]).2 0 0 = some 3) ∧
    (((false : Bool) = true ∨ (3 : ℚ) < -4 ∨ (15 : ℚ) < 3) →
      gEntry (fix_phidp_from_kdp [[1, 2]] [[3, 4]] [0, 2] [[false, true]]).2 0 0 = some 0) ∧
    ((fix_phidp_from_kdp [[1, 2]] [[3, 4]] [0, 2] [[false, true]]).1)[0]? =
      some (setFront [1, 2]
        ((cumtrapz (clampRow [false, true] [3, 4]) [0, 2]).map
          (fun w => w / ((([0, 2] : Ray).length : ℚ))))) ∧
    (∃ orow : Ray, ((fix_phidp_from_kdp [[1, 2]] [[3, 4]] [0, 2] [[false, true]]).1)[0]? = some orow ∧
      orow[([0, 2] : Ray).length - 1]? = ([1, 2] : Ray)[([0, 2] : Ray).length - 1]?) :=
  c9_inplace_mutation_frame [[1, 2]] [[3, 4]] [0, 2] [[false, true]] 0 0
    3 false [1, 2] [3, 4] [false, true] rfl rfl rfl rfl rfl rfl rfl rfl (by decide)

/-! ### `phidp_giangrande` (phase.py, lines 120-203) and the shared
offset shift -/

/-- Gate values of `g` at included (not gate-excluded) positions, in
row-major order: the boolean selection `phi[gatefilter.gate_included]`. -/
def includedVals (M : Mask) (g : Grid) : List ℚ :=
  (List.zipWith (fun mrow row =>
    (List.zipWith (fun (b : Bool) (v : ℚ) => if b then ([] : List ℚ) else [v])
      mrow row).flatten) M g).flatten

/-- Model of `np.nanmean(phi[gatefilter.gate_included])`: the mean of
the included gate values, undefined (`none`) when no gate is included.
(On an empty selection numpy returns NaN, and `NaN < 0` is false;
together with the surrounding `except ValueError: pass` either path
skips the shift, which `none` models.  The grid model has no NaN
values, so `nanmean` coincides with the mean.) -/
def meanIncluded (M : Mask) (g : Grid) : Option ℚ :=
  let vs := includedVals M g
  if vs.isEmpty then none else some (vs.sum / (vs.length : ℚ))

/-- The conditional 90-unit offset shift shared by `phidp_giangrande`
(phase.py lines 162-166) and `phidp_bringi` (lines 92-96): if the mean
of the included gates of `stat` is negative, add `90` to every entry of
`target`; otherwise, or when the mean is undefined, leave `target`
unchanged. -/
def offset_shift (M : Mask) (stat target : Grid) : Grid :=
  match meanIncluded M stat with
  | some mu => if mu < 0 then target.map (List.map (fun v => v + 90)) else target
  | none => target

/-- The flag grid of `phidp_giangrande` (lines 157-158):
`vflag = np.zeros_like(phi)`, then `vflag[gatefilter.gate_excluded] = -3`. -/
def vflagOf (M : Mask) (phi : Grid) : Grid :=
  List.zipWith (List.zipWith (fun (b : Bool) (_ : ℚ) => if b then (-3 : ℚ) else 0))
    M phi

/-- Line 171 of phase.py: `unfphi[vflag == -3] = 0`. -/
def zeroFlagged (vflag g : Grid) : Grid :=
  List.zipWith (List.zipWith (fun f v => if f = (-3 : ℚ) then 0 else v)) vflag g

/-- Maximum of a list of gate values (`ndarray.max()`); `none` on the
empty array, where numpy raises instead. -/
def listMax : List ℚ → Option ℚ
  | [] => none
  | x :: xs => some (xs.foldl max x)

/-- Minimum of a list of gate values (`ndarray.min()`); `none` on the
empty array, where numpy raises instead. -/
def listMin : List ℚ → Option ℚ
  | [] => none
  | x :: xs => some (xs.foldl min x)

/-- Half-range detection (phase.py lines 151-155):
`phi.max() - phi.min() <= 200`. -/
def halfPhiOf (phi : Grid) : Option Bool :=
  match listMax phi.flatten, listMin phi.flatten with
  | some hi, some lo => some (decide (hi - lo ≤ 200))
  | _, _ => none

/-- The unwrapped phase grid `unfphi` of `phidp_giangrande` as it stands
after line 171, just before KDP estimation: the region-based dealias
result (`dealias` abstracts the external
`pyart.correct.dealias_region_based`), then the conditional 90-unit
offset shift (lines 162-166), then the doubling in half-range mode
(lines 168-169), then the zeroing of flagged entries (line 171). -/
def giangrande_unfolded (dealias : Grid → Grid) (M : Mask) (phi : Grid)
    (half_phi : Bool) : Grid :=
  let unfphi0 := dealias phi
  let unfphi1 := offset_shift M phi unfphi0
  let unfphi2 := if half_phi then unfphi1.map (List.map (fun v => v * 2)) else unfphi1
  zeroFlagged (vflagOf M phi) unfphi2

/-- Embedding of `phidp_giangrande(radar, gatefilter, ...)` (phase.py
lines 120-203).  `dealias` abstracts `pyart.correct.dealias_region_based`
and `lp` abstracts `pyart.correct.phase_proc_lp` (both external to this
repository); `phi` is `radar.fields[phidp_field]['data']`, `rng` is
`radar.range['data']`, `M` is `gatefilter.gate_excluded`.  In half-range
mode the source reaches line 189, `unfphi['data'] /= 2`: `unfphi` is
the numpy (masked) float array taken from the dealias result at line
160, and indexing a float ndarray with the string `'data'` raises
`IndexError`, so the halving block never completes; the embedding
surfaces that error.  Metadata bookkeeping (`add_field_like`,
`fields.pop`, `phidp_gg.pop`) does not affect the returned data and is
omitted. -/
def phidp_giangrande (dealias : Grid → Grid) (lp : Grid → Grid × Grid)
    (phi : Grid) (rng : Ray) (M : Mask) : Except PyErr (Grid × Grid) :=
  match halfPhiOf phi with
  | none => Except.error PyErr.valueError
  | some half_phi =>
    let unfphi := giangrande_unfolded dealias M phi half_phi
    let pk := lp unfphi
    if half_phi then Except.error PyErr.indexError
    else Except.ok (fix_phidp_from_kdp pk.1 pk.2 rng M)

/-- Embedding of `phidp_bringi(radar, gatefilter, ...)` (phase.py lines
66-117): the conditional offset shift applied to the unfolded phase
`dp`, followed by the external `csu_kdp.calc_kdp_bringi` (abstracted as
`calck`, returning the pair `(kdpb, phidpb)`).  The subsequent
`np.ma.masked_where(x == -9999, x)` calls change validity flags only,
not the stored gate values, and the metadata assembly is omitted; the
function returns `(phidpb, kdpb)`. -/
def phidp_bringi (calck : Grid → Grid → Grid × Grid) (M : Mask)
    (dp0 dz : Grid) : Grid × Grid :=
  let dp := offset_shift M dp0 dp0
  let kp := calck dp dz
  (kp.2, kp.1)

/-- C1 (evidence for the defect): a sweep whose raw PHIDP spans at most
200 raw units selects half-range mode, and `phidp_giangrande` then
raises `IndexError` at `unfphi['data'] /= 2` instead of halving and
returning its outputs. -/
theorem c1_half_range_mode_raises :
    phidp_giangrande (fun g => g) (fun g => (g, g)) [[10, 10]] [0, 1000]
      [[false, false]] = Except.error PyErr.indexError := by
  have h : halfPhiOf [[10, 10]] = some true := by
    norm_num [halfPhiOf, listMax, listMin, max_self, min_self]
  simp [phidp_giangrande, h]

/-! ### Pointwise tracking lemmas for the unfold pipeline -/

theorem gEntry_offset_shift (M : Mask) (stat g : Grid) (i j : ℕ) (w : ℚ)
    (hw : gEntry g i j = some w) :
    ∃ w', gEntry (offset_shift M stat g) i j = some w' := by
  unfold offset_shift
  cases meanIncluded M stat with
  | none => exact ⟨w, hw⟩
  | some mu =>
    by_cases hmu : mu < 0
    · refine ⟨w + 90, ?_⟩
      simp only [hmu, if_true]
      rw [gEntry_map, hw]
      rfl
    · exact ⟨w, by simp only [hmu, if_false]; exact hw⟩

/-- C5: after unfolding and clamping, gate-excluded positions are zero:
the unwrapped PHIDP of `phidp_giangrande` (the grid handed to KDP
estimation after line 171) is `0` at every gate-excluded position, and
the clamped KDP returned by `fix_phidp_from_kdp` is `0` at every
gate-excluded position. -/
theorem c5_excluded_gates_zeroed (dealias : Grid → Grid) (M : Mask)
    (phi : Grid) (half_phi : Bool) (P K : Grid) (r : Ray) (i j : ℕ)
    (p w v : ℚ)
    (hb : gEntry M i j = some true) (hp : gEntry phi i j = some p)
    (hw : gEntry (dealias phi) i j = some w) (hv : gEntry K i j = some v) :
    gEntry (giangrande_unfolded dealias M phi half_phi) i j = some 0 ∧
    gEntry (fix_phidp_from_kdp P K r M).2 i j = some 0 := by
  constructor
  · have hflag : gEntry (vflagOf M phi) i j = some (-3 : ℚ) := by
      have := gEntry_zipWith (f := fun (b : Bool) (_ : ℚ) => if b then (-3 : ℚ) else 0)
        hb hp
      simpa [vflagOf] using this
    obtain ⟨w1, hw1⟩ := gEntry_offset_shift M phi (dealias phi) i j w hw
    have hw2 : ∃ w2, gEntry (if half_phi then
        (offset_shift M phi (dealias phi)).map (List.map (fun v => v * 2))
        else offset_shift M phi (dealias phi)) i j = some w2 := by
      cases half_phi with
      | false => exact ⟨w1, hw1⟩
      | true =>
        refine ⟨w1 * 2, ?_⟩
        simp only [if_true]
        rw [gEntry_map, hw1]
        rfl
    obtain ⟨w2, hw2⟩ := hw2
    have := gEntry_zipWith (f := fun f v => if f = (-3 : ℚ) then 0 else v) hflag hw2
    simpa [giangrande_unfolded, zeroFlagged] using this
  · have := gEntry_zipWith (f := clampKdpPoint) hb hv
    have h0 : clampKdpPoint true v = 0 := clampKdpPoint_excluded v
    simpa [fix_phidp_from_kdp, clampKdp, clampRow, h0] using this

/-- Closed witness for `c5_excluded_gates_zeroed` on one-gate grids with
the gate excluded. -/
theorem c5_excluded_gates_zeroed_witness :
    gEntry (giangrande_unfolded (fun g => g) [[true]] [[5]] true) 0 0 = some 0 ∧
    gEntry (fix_phidp_from_kdp [[1]] [[7]] [3] [[true]]).2 0 0 = some 0 :=
  c5_excluded_gates_zeroed (fun g => g) [[true]] [[5]] true [[1]] [[7]] [3]
    0 0 5 5 7 rfl rfl rfl rfl

/-- C6: the 90-unit offset shift is applied exactly when the mean of the
included raw phase gates is negative; the mean is undefined exactly when
no gate is included, in which case the shift is skipped without raising
and the rest of the processing still completes (`phidp_bringi` proceeds
with the unshifted phase, and `phidp_giangrande` returns normally on a
full-range sweep). -/
theorem c6_offset_shift_spec (M : Mask) (stat g : Grid) :
    (∀ mu, meanIncluded M stat = some mu →
      offset_shift M stat g =
        if mu < 0 then g.map (List.map (fun v => v + 90)) else g) ∧
    (meanIncluded M stat = none → offset_shift M stat g = g) ∧
    (meanIncluded M stat = none ↔ includedVals M stat = []) ∧
    (∀ calck : Grid → Grid → Grid × Grid, ∀ dz : Grid,
      includedVals M stat = [] →
      phidp_bringi calck M stat dz = ((calck stat dz).2, (calck stat dz).1)) ∧
    (∀ dealias : Grid → Grid, ∀ lp : Grid → Grid × Grid, ∀ rng : Ray,
      halfPhiOf stat = some false →
      ∃ out, phidp_giangrande dealias lp stat rng M = Except.ok out) := by
  refine ⟨?_, ?_, ?_, ?_, ?_⟩
  · intro mu hmu
    unfold offset_shift
    rw [hmu]
  · intro hnone
    unfold offset_shift
    rw [hnone]
  · unfold meanIncluded
    constructor
    · intro h
      by_cases he : (includedVals M stat).isEmpty
      · exact List.isEmpty_iff.mp he
      · simp [he] at h
    · intro h
      simp [h]
  · intro calck dz h
    have hnone : meanIncluded M stat = none := by
      unfold meanIncluded
      simp [h]
    unfold phidp_bringi
    rw [show offset_shift M stat stat = stat from by unfold offset_shift; rw [hnone]]
  · intro dealias lp rng hhalf
    simp only [phidp_giangrande, hhalf, if_false, Bool.false_eq_true]
    exact ⟨_, rfl⟩

/-- Closed witness for `c6_offset_shift_spec`: a one-gate sweep whose
only gate is excluded. -/
theorem c6_offset_shift_spec_witness :
    (∀ mu, meanIncluded [[true]] [[5]] = some mu →
      offset_shift [[true]] [[5]] [[7]] =
        if mu < 0 then ([[7]] : Grid).map (List.map (fun v => v + 90)) else [[7]]) ∧
    (meanIncluded [[true]] [[5]] = none → offset_shift [[true]] [[5]] [[7]] = [[7]]) ∧
    (meanIncluded [[true]] [[5]] = none ↔ includedVals [[true]] [[5]] = []) ∧
    (∀ calck : Grid → Grid → Grid × Grid, ∀ dz : Grid,
      includedVals [[true]] [[5]] = [] →
      phidp_bringi calck [[true]] [[5]] dz = ((calck [[5]] dz).2, (calck [[5]] dz).1)) ∧
    (∀ dealias : Grid → Grid, ∀ lp : Grid → Grid × Grid, ∀ rng : Ray,
      halfPhiOf [[5]] = some false →
      ∃ out, phidp_giangrande dealias lp [[5]] rng [[true]] = Except.ok out) :=
  c6_offset_shift_spec [[true]] [[5]] [[7]]

/-! ### `correct_attenuation_zdr` (attenuation.py, lines 57-90) -/

/-- Embedding of
`correct_attenuation_zdr(radar, zdr_name, phidp_name, alpha=0.016)`.
`zdr` and `phi` are the two field grids the function copies out of the
radar structure.  The signature declares the coefficient `alpha` with
default `0.016`, but the body (line 88) computes `zdr + 0.016 * phi`
with the literal constant and never reads `alpha`; the embedding keeps
the unused parameter to make that visible. -/
def correct_attenuation_zdr (zdr phi : Grid) (alpha : ℚ) : Grid :=
  List.zipWith (List.zipWith (fun z p => z + 0.016 * p)) zdr phi

/-- C7 (evidence for the defect): called with `alpha = 1/10`, the
function still adds `0.016` times PHIDP — the output at the single gate
is `16`, not `(1/10) * 1000 = 100` — so the coefficient is not the
tunable parameter the claim describes. -/
theorem c7_alpha_ignored :
    correct_attenuation_zdr [[0]] [[1000]] (1 / 10) = [[16]] ∧
    (0 : ℚ) + (1 / 10) * 1000 ≠ 16 := by
  constructor
  · norm_num [correct_attenuation_zdr]
  · norm_num

/-! ### `correct_gaseous_attenuation` (attenuation.py, lines 20-54) -/

/-- Embedding of `correct_gaseous_attenuation(radar)`.  `e` abstracts
`np.exp` (the only transcendental the routine uses); `range_m` is
`radar.range['data']` in metres and `elev` is `radar.elevation['data']`
in degrees.  Following the source: `r = radar.range['data'] / 1000`
(line 33), the meshgrid pairs every elevation (one row per ray) with
every range gate (lines 36-38), `tempgas1 = 0.4 + 3.45*exp(-TH/1.8)`,
`tempgas2 = 27.8 + 154*exp(-TH/2.2)` (lines 41-42),
`atten_gas = 1.2 * tempgas1 * (1 - exp(-R/tempgas2))` (line 43), and
rows whose elevation exceeds 10 degrees are zeroed afterwards
(`atten_gas[~pos] = 0` with `pos = TH <= 10`, lines 39 and 44). -/
def correct_gaseous_attenuation (e : ℚ → ℚ) (range_m : Ray)
    (elev : List ℚ) : Grid :=
  let r := range_m.map (fun x => x / 1000)
  let atten := elev.map (fun th =>
    let tempgas1 := 0.4 + 3.45 * e (-th / 1.8)
    let tempgas2 := 27.8 + 154 * e (-th / 2.2)
    r.map (fun rk => 1.2 * tempgas1 * (1 - e (-rk / tempgas2))))
  List.zipWith
    (fun th row => if th ≤ 10 then row else row.map (fun _ => (0 : ℚ)))
    elev atten

/-- C8: for a ray whose elevation exceeds 10 degrees the gaseous
attenuation is exactly `0` at every range gate; for elevation at or
below 10 degrees it equals the two-term exponential closed form scaled
by the C-band factor `1.2`. -/
theorem c8_gaseous_attenuation (e : ℚ → ℚ) (range_m : Ray) (elev : List ℚ)
    (i j : ℕ) (th rm : ℚ)
    (hth : elev[i]? = some th) (hrm : range_m[j]? = some rm) :
    (10 < th →
      gEntry (correct_gaseous_attenuation e range_m elev) i j = some 0) ∧
    (th ≤ 10 →
      gEntry (correct_gaseous_attenuation e range_m elev) i j =
        some (1.2 * (0.4 + 3.45 * e (-th / 1.8)) *
          (1 - e (-(rm / 1000) / (27.8 + 154 * e (-th / 2.2)))))) := by
  have hrow : (elev.map (fun th =>
      (range_m.map (fun x => x / 1000)).map
        (fun rk => 1.2 * (0.4 + 3.45 * e (-th / 1.8)) *
          (1 - e (-rk / (27.8 + 154 * e (-th / 2.2)))))))[i]? =
      some ((range_m.map (fun x => x / 1000)).map
        (fun rk => 1.2 * (0.4 + 3.45 * e (-th / 1.8)) *
          (1 - e (-rk / (27.8 + 154 * e (-th / 2.2)))))) := by
    rw [List.getElem?_map, hth]
    rfl
  have hout : (correct_gaseous_attenuation e range_m elev)[i]? =
      some (if th ≤ 10 then
        (range_m.map (fun x => x / 1000)).map
          (fun rk => 1.2 * (0.4 + 3.45 * e (-th / 1.8)) *
            (1 - e (-rk / (27.8 + 154 * e (-th / 2.2)))))
      else ((range_m.map (fun x => x / 1000)).map
          (fun rk => 1.2 * (0.4 + 3.45 * e (-th / 1.8)) *
            (1 - e (-rk / (27.8 + 154 * e (-th / 2.2)))))).map
          (fun _ => (0 : ℚ))) :=
    zipWith_getElem?_some hth hrow
  constructor
  · intro h10
    have hnot : ¬ th ≤ 10 := not_le.mpr h10
    unfold gEntry
    rw [hout, Option.some_bind]
    simp only [hnot, if_false]
    rw [List.getElem?_map, List.getElem?_map, List.getElem?_map, hrm]
    rfl
  · intro h10
    unfold gEntry
    rw [hout, Option.some_bind]
    simp only [h10, if_true]
    rw [List.getElem?_map, List.getElem?_map, hrm]
    rfl

/-- Closed witness for `c8_gaseous_attenuation`: one ray at 15 degrees
elevation (zeroed) — the at-or-below-10 branch is instantiated at the
same input, where its guard is vacuous. -/
theorem c8_gaseous_attenuation_witness :
    (10 < (15 : ℚ) →
      gEntry (correct_gaseous_attenuation (fun x => x) [2000] [15]) 0 0 = some 0) ∧
    ((15 : ℚ) ≤ 10 →
      gEntry (correct_gaseous_attenuation (fun x => x) [2000] [15]) 0 0 =
        some (1.2 * (0.4 + 3.45 * (-(15 : ℚ) / 1.8)) *
          (1 - (-((2000 : ℚ) / 1000) / (27.8 + 154 * (-(15 : ℚ) / 2.2)))))) :=
  c8_gaseous_attenuation (fun x => x) [2000] [15] 0 0 15 2000 rfl rfl

/-! ### `valentin_phase_processing` (phase.py, lines 235-318) -/

/-- A Python value, as far as the embedded phase module manipulates
them: radar structures, gate filters, strings, the `bounds` pair, float
arrays, and opaque module-level globals (imported modules and the
functions defined by phase.py). -/
inductive PyVal where
  | radarObj (fields : List (String × Grid)) (rng : Ray)
  | gateFilterObj (excluded : Mask)
  | strVal (s : String)
  | boundsVal (lo hi : ℚ)
  | gridVal (g : Grid)
  | globalObj (name : String)

/-- The names bound at module level in phase.py: the imports (lines
21-34) and the five functions the module itself defines.  None of them
is `phi`. -/
def phaseModuleGlobals : List String :=
  ["copy", "pyart", "scipy", "netCDF4", "np", "integrate", "ndimage",
   "csu_kdp", "smooth_and_trim_scan", "LinearRegression",
   "IsotonicRegression", "fix_phidp_from_kdp", "phidp_bringi",
   "phidp_giangrande", "_compute_kdp_from_phidp",
   "valentin_phase_processing"]

/-- Python name resolution as seen from inside a function of phase.py:
the local scope first, then the module globals (no builtin is named
`phi`, so builtins need not be modelled).  A name bound in neither
raises `NameError`. -/
def pyLookup (locals : List (String × PyVal)) (n : String) :
    Except PyErr PyVal :=
  match locals.find? (fun p => p.1 == n) with
  | some p => Except.ok p.2
  | none =>
      if phaseModuleGlobals.contains n then Except.ok (PyVal.globalObj n)
      else Except.error PyErr.nameError

/-- Calling `.max()` and `.min()` requires the resolved value to be an
array; on any other value Python raises before the comparison
(`typeError` stands for the relevant `AttributeError`). -/
def asGrid : PyVal → Except PyErr Grid
  | PyVal.gridVal g => Except.ok g
  | _ => Except.error PyErr.typeError

/-- Embedding of `valentin_phase_processing(radar, gatefilter,
phidp_name='PHIDP', bounds=[0, 360])` (phase.py lines 235-318).  The
first statement of the body (line 256) evaluates
`phi.max() - phi.min() <= 200`; at that point the local scope binds
exactly the four parameters, so the name `phi` is resolved through
`pyLookup`.  The remainder of the body — nyquist/cutoff selection
(lines 256-263), region-based dealiasing (`dealias`, external Py-ART
call), doubling in half-range mode, and the per-ray isotonic-regression
loop (abstracted as `iso`, since `IsotonicRegression` is external
scikit-learn code) with the final halving — is dead code behind that
name lookup and is carried in simplified form. -/
def valentin_phase_processing (dealias : ℚ → Grid → Grid)
    (iso : Grid → Grid) (radar gatefilter phidp_name bounds : PyVal) :
    Except PyErr Grid :=
  let locals := [("radar", radar), ("gatefilter", gatefilter),
                 ("phidp_name", phidp_name), ("bounds", bounds)]
  (pyLookup locals "phi").bind (fun phiv =>
    (asGrid phiv).bind (fun phi =>
      match halfPhiOf phi with
      | none => Except.error PyErr.valueError
      | some half_phi =>
        let nyquist : ℚ := if half_phi then 90 else 180
        let unfphi := dealias nyquist phi
        let unfphi2 := if half_phi then
          unfphi.map (List.map (fun v => v * 2)) else unfphi
        let phitot := iso unfphi2
        Except.ok (if half_phi then
          phitot.map (List.map (fun v => v / 2)) else phitot)))

/-- C10: for every input — any radar structure, gate filter, field name
and bounds, and any behaviour of the external dealiasing and isotonic
fits — `valentin_phase_processing` raises `NameError` at the half-range
detection step, because `phi` is bound neither in its local scope nor
at module level; it never returns a processed phase grid. -/
theorem c10_valentin_name_error (dealias : ℚ → Grid → Grid)
    (iso : Grid → Grid) (radar gatefilter phidp_name bounds : PyVal) :
    valentin_phase_processing dealias iso radar gatefilter phidp_name bounds
      = Except.error PyErr.nameError := rfl

end Cpol
